import Mathlib

/-!
# opencv2fb: camera frame → QR scan → framebuffer

A shallow embedding of `src/opencv2fb/main.cpp`.

* `cv::Mat` is a record of its dimensions and an element accessor.
* `int` arithmetic is done in `Int` and reduced to the 32-bit two's-complement
  range by `toInt32` wherever the source computes in `int`.
* `cv::Size2f` holds `float`s; the values it holds here are conversions of
  `int`s, which are integers again, so `toFloat32 : Nat → Nat` is enough.
* Every call that leaves the program (zbar, the OpenCV threshold and
  morphology calls, `std::cout`, `std::cerr`, `seekp`/`write` on the
  framebuffer stream) is recorded as an `Event`; a function of the program
  returns the events it performed, in order.
* The external collaborators (the zbar scan, Otsu threshold selection, the
  morphological opening) are parameters, bundled in `Env`.
-/

namespace Opencv2fb

/-! ## Machine numbers -/

/-- The signed value of the low 32 bits of `z`: what an `int` holds after a
conversion from `uint32_t`, and the two's-complement result of `int`
arithmetic (on overflow the C++ standard leaves the result undefined; this is
the value the target's multiply and add instructions produce). -/
def toInt32 (z : Int) : Int := (z + 2147483648) % 4294967296 - 2147483648

/-- Product of two `int`s. -/
def mulInt32 (a b : Int) : Int := toInt32 (a * b)

/-- Round `n` to a multiple of `ulp`, to nearest, ties to the even multiple. -/
def roundEven (n ulp : Nat) : Nat :=
  let q := n / ulp
  let r := n % ulp
  if 2 * r > ulp ∨ (2 * r = ulp ∧ q % 2 = 1) then (q + 1) * ulp else q * ulp

/-- Search for the binade of `n` (24 significant bits) and round there. -/
def toFloat32Aux : Nat → Nat → Nat → Nat
  | 0, ulp, n => roundEven n ulp
  | k + 1, ulp, n =>
    if n < 16777216 * ulp then roundEven n ulp else toFloat32Aux k (2 * ulp) n

/-- The value of `(float) n` for a non-negative integer `n` (IEEE-754 binary32,
round to nearest even). The result is again an integer. -/
def toFloat32 (n : Nat) : Nat := toFloat32Aux 104 1 n

/-! ## Images -/

/-- The element depth code of 8-bit unsigned elements. -/
def CV_8U : Nat := 0

/-- A `cv::Mat`: `data r c k` is channel `k` of the pixel at row `r`, column `c`. -/
structure Mat where
  rows : Nat
  cols : Nat
  channels : Nat
  depth : Nat
  data : Nat → Nat → Nat → Nat

namespace Mat

/-- `cv::Mat::empty()`: no elements. -/
def empty (m : Mat) : Bool := m.rows * m.cols == 0

/-- Bytes per row of a continuous 8-bit matrix. -/
def step (m : Mat) : Nat := m.cols * m.channels

/-- The byte at linear offset `i` of the (continuous) element buffer. -/
def byteAt (m : Mat) (i : Nat) : Nat :=
  m.data (i / m.step) (i % m.step / m.channels) (i % m.channels)

/-- The `len` bytes starting at `m.ptr(y)`, the start of row `y`. -/
def ptr (m : Mat) (y len : Nat) : List Nat :=
  (List.range len).map fun i => m.byteAt (y * m.step + i)

end Mat

/-! ## Events -/

/-- A call that leaves the program. -/
inductive Event where
  /-- `threshold(img, binImg, 0, 255, THRESH_OTSU)`, which selected `t`. -/
  | otsu (t : Int)
  /-- `threshold(img, binImg, thre, 255, THRESH_BINARY)`. -/
  | binarize (thre : Int)
  /-- `ZbarDecoder(img)`. -/
  | decode (img : Mat)
  /-- `morphologyEx(img, _, MORPH_OPEN, 3x3 rectangle)`. -/
  | morphOpen (img : Mat)
  /-- `std::cout << s << endl`. -/
  | cout (s : String)
  /-- `std::cerr << s << endl`. -/
  | cerr (s : String)
  /-- `ofs.seekp(off)`. -/
  | seekp (off : Int)
  /-- `ofs.write(data, len)`. -/
  | write (len : Nat) (data : List Nat)

namespace Event

/-- Is the event a call of the barcode decoder? -/
def isDecode : Event → Bool
  | decode _ => true
  | _ => false

/-- Is the event a morphological opening? -/
def isMorphOpen : Event → Bool
  | morphOpen _ => true
  | _ => false

/-- Is the event a call of `threshold` (Otsu or fixed)? -/
def isThreshold : Event → Bool
  | otsu _ => true
  | binarize _ => true
  | _ => false

/-- Is the event a seek or a write on the framebuffer stream? -/
def isDevice : Event → Bool
  | seekp _ => true
  | write _ _ => true
  | _ => false

end Event

/-! ## The scanner -/

/-- The collaborators outside the repository. -/
structure Env where
  /-- The data of the symbols zbar finds in an image, in the order of its result set. -/
  scan : Mat → List String
  /-- The threshold `threshold(.., THRESH_OTSU)` selects, as converted to `int`. -/
  otsu : Mat → Int
  /-- The result of `morphologyEx(.., MORPH_OPEN, ..)` with the 3x3 rectangle. -/
  morphOpen : Mat → Mat

/-- `ZbarDecoder`: the data of the first symbol of the scan, the empty string
when the scan found none. -/
def ZbarDecoder (env : Env) (img : Mat) : String :=
  match env.scan img with
  | [] => ""
  | s :: _ => s

/-- `threshold(img, binImg, thre, 255, THRESH_BINARY)`: an element above
`thre` becomes 255, any other 0. -/
def thresholdBinary (img : Mat) (thre : Int) : Mat :=
  { img with data := fun r c k => if thre < (img.data r c k : Int) then 255 else 0 }

/-- `GetQRInBinImg`: decode the binary image, and when that gives nothing,
decode its opening. Returns the result and the calls made. -/
def GetQRInBinImg (env : Env) (binImg : Mat) : String × List Event :=
  let result := ZbarDecoder env binImg
  if result.isEmpty then
    let openImg := env.morphOpen binImg
    (ZbarDecoder env openImg,
      [Event.decode binImg, Event.morphOpen binImg, Event.decode openImg])
  else
    (result, [Event.decode binImg])

/-- The `while` loop of `GetQR`, from the state `(result, thre)`. -/
def GetQR.loop (env : Env) (img : Mat) (result : String) (thre : Int) :
    String × List Event :=
  if result.isEmpty ∧ thre < 255 then
    let binImg := thresholdBinary img thre
    let r := GetQRInBinImg env binImg
    let rest := GetQR.loop env img r.1 (thre + 20)
    (rest.1, Event.binarize thre :: (r.2 ++ rest.2))
  else
    (result, [])
termination_by (255 - thre).toNat
decreasing_by
  rename_i h
  omega

/-- `GetQR`: Otsu threshold first, then the loop from the empty result. -/
def GetQR (env : Env) (img : Mat) : String × List Event :=
  let thre := env.otsu img
  let rest := GetQR.loop env img "" thre
  (rest.1, Event.otsu thre :: rest.2)

/-! ## The framebuffer writer -/

/-- The geometry record of the source: two `uint32_t` fields. -/
structure framebuffer_info where
  bits_per_pixel : Nat
  xres_virtual : Nat

/-- What a part of the program did: the calls it made, and whether it was
left by a `cv::Exception` (nothing in the program catches one, so the process
ends there). -/
structure Step where
  events : List Event
  raised : Bool

/-- `cvtColor(frame, _, COLOR_BGR2BGR565)`: each pixel becomes the 16-bit word
`(b >> 3) | ((g & ~3) << 3) | ((r & ~7) << 8)`, stored low byte first. -/
def cvtColorBGR565 (frame : Mat) : Mat :=
  { rows := frame.rows, cols := frame.cols, channels := 2, depth := CV_8U,
    data := fun r c k =>
      let v := frame.data r c 0 / 8 + frame.data r c 1 / 4 * 32 + frame.data r c 2 / 8 * 2048
      match k with
      | 0 => v % 256
      | _ => v / 256 % 256 }

/-- `cv::split`: one single-channel plane per channel. -/
def split (m : Mat) : List Mat :=
  (List.range m.channels).map fun k =>
    { rows := m.rows, cols := m.cols, channels := 1, depth := m.depth,
      data := fun r c _ => m.data r c k }

/-- `cv::Mat(size, CV_8UC1, Scalar(v))`: a single-channel plane of constant `v`. -/
def constPlane (width height v : Nat) : Mat :=
  { rows := height, cols := width, channels := 1, depth := CV_8U, data := fun _ _ _ => v }

/-- `cv::merge` of single-channel planes: plane `k` becomes channel `k`. The
planes must agree in size and depth, otherwise the call raises. -/
def merge (mv : List Mat) : Option Mat :=
  match mv with
  | [] => none
  | m0 :: _ =>
    if mv.all fun m => m.rows == m0.rows && m.cols == m0.cols && m.depth == m0.depth then
      some { rows := m0.rows, cols := m0.cols, channels := mv.length, depth := m0.depth,
             data := fun r c k => (mv.getD k m0).data r c 0 }
    else none

/-- The scanline loop
`for (int y = 0; y < frame_size.height; y++) { ofs.seekp(y * framebuffer_width * bytes);
ofs.write(compat.ptr(y), frame_size.width * bytes); }`
from row `y` on. `fwidth` and `fheight` are the `float` members of
`frame_size`: the loop test compares `(float) y` with the height, and the
write length is the width times `bytes` (2 or 4, a product a `float` holds
exactly). The offset is computed in `int`. The first argument after the
colon bounds the number of rounds. -/
def scanlines (compat : Mat) (framebuffer_width : Int) (bytes fwidth fheight : Nat) :
    Nat → Nat → List Event
  | 0, _ => []
  | fuel + 1, y =>
    if toFloat32 y < fheight then
      Event.seekp (mulInt32 (mulInt32 y framebuffer_width) bytes)
        :: Event.write (fwidth * bytes) (compat.ptr y (fwidth * bytes))
        :: scanlines compat framebuffer_width bytes fwidth fheight fuel (y + 1)
    else []

/-- The block of `main` for a 3-channel 8-bit frame (lines 145-174): the
`switch` on the framebuffer depth. The loop cannot run more than `frame.rows`
rounds (see `scanlines_fuel`), which is the bound given to `scanlines`. -/
def framebufferWrite (fb_info : framebuffer_info) (frame : Mat) : Step :=
  let framebuffer_width := toInt32 fb_info.xres_virtual
  let framebuffer_depth := toInt32 fb_info.bits_per_pixel
  let fwidth := toFloat32 frame.cols
  let fheight := toFloat32 frame.rows
  if framebuffer_depth = 16 then
    let framebuffer_compat := cvtColorBGR565 frame
    ⟨scanlines framebuffer_compat framebuffer_width 2 fwidth fheight frame.rows 0, false⟩
  else if framebuffer_depth = 32 then
    match merge (split frame ++ [constPlane fwidth fheight 255]) with
    | none => ⟨[], true⟩
    | some framebuffer_compat =>
      ⟨scanlines framebuffer_compat framebuffer_width 4 fwidth fheight frame.rows 0, false⟩
  else
    ⟨[Event.cerr "Unsupported depth of framebuffer."], false⟩

/-- The format checks of `main` around the writer (lines 134-175). -/
def render (fb_info : framebuffer_info) (frame : Mat) : Step :=
  if frame.depth ≠ CV_8U then
    ⟨[Event.cerr "Not 8 bits per pixel and channel."], false⟩
  else if frame.channels ≠ 3 then
    ⟨[Event.cerr "Not 3 channels."], false⟩
  else
    framebufferWrite fb_info frame

/-! ## The framebuffer stream -/

/-- The `std::ofstream` on the framebuffer device: its fail state, its put
position and the bytes of the device. -/
structure Ofstream where
  fail : Bool
  pos : Nat
  mem : Nat → Nat

namespace Ofstream

/-- `seekp(off)`: nothing on a failed stream; a negative offset fails the stream. -/
def seekp (s : Ofstream) (off : Int) : Ofstream :=
  if s.fail then s
  else if off < 0 then { s with fail := true }
  else { s with pos := off.toNat }

/-- `write(data, len)`: nothing on a failed stream; otherwise `len` bytes
at the put position. -/
def write (s : Ofstream) (len : Nat) (data : List Nat) : Ofstream :=
  if s.fail then s
  else
    { s with
      pos := s.pos + len
      mem := fun a => if s.pos ≤ a ∧ a < s.pos + len then data.getD (a - s.pos) 0 else s.mem a }

/-- The stream after the stream calls among `evs`. -/
def run (s : Ofstream) : List Event → Ofstream
  | [] => s
  | Event.seekp off :: evs => run (s.seekp off) evs
  | Event.write len data :: evs => run (s.write len data) evs
  | _ :: evs => run s evs

end Ofstream

/-! ## The render loop -/

/-- `m(cv::Rect(x, y, width, height))`: the sub-matrix, or nothing when the
rectangle does not lie inside `m` (the call raises). -/
def Mat.roi (m : Mat) (x y width height : Nat) : Option Mat :=
  if x + width ≤ m.cols ∧ y + height ≤ m.rows then
    some { rows := height, cols := width, channels := m.channels, depth := m.depth,
           data := fun r c k => m.data (y + r) (x + c) k }
  else none

/-- `cv::transpose`. -/
def transpose (m : Mat) : Mat :=
  { rows := m.cols, cols := m.rows, channels := m.channels, depth := m.depth,
    data := fun r c k => m.data c r k }

/-- `cv::flip(m, m, 1)`: mirror each row. -/
def flipHorizontal (m : Mat) : Mat :=
  { m with data := fun r c k => m.data r (m.cols - 1 - c) k }

/-- Lines 127-129 of `main`: crop, transpose, flip. -/
def normalize (captured : Mat) : Option Mat :=
  match captured.roi 160 120 320 240 with
  | none => none
  | some frame => some (flipHorizontal (transpose frame))

/-- One round of the `while (true)` of `main` on the frame the camera
delivered (lines 123-175). -/
def iteration (env : Env) (fb_info : framebuffer_info) (captured : Mat) : Step :=
  if captured.empty then
    ⟨[], false⟩
  else
    match normalize captured with
    | none => ⟨[], true⟩
    | some frame =>
      let result := GetQR env frame
      let shown := result.2 ++ [Event.cout result.1]
      let w := render fb_info frame
      ⟨shown ++ w.events, w.raised⟩

/-- The `while (true)` of `main` over the frames the camera delivers, one per
round: it goes on until a round raises. -/
def renderLoop (env : Env) (fb_info : framebuffer_info) : List Mat → Step
  | [] => ⟨[], false⟩
  | captured :: rest =>
    let s := iteration env fb_info captured
    if s.raised then s
    else
      let t := renderLoop env fb_info rest
      ⟨s.events ++ t.events, t.raised⟩

/-! ## Startup -/

/-- What the system answers at startup. -/
structure Startup where
  /-- The result of `open("/dev/fb0", O_RDWR)`. -/
  fd : Int
  /-- The result of `ioctl(fd, FBIOGET_VSCREENINFO, &screen_info)`. -/
  ioctlResult : Int
  /-- The geometry a successful `ioctl` stores in `screen_info`. -/
  screen_info : framebuffer_info
  /-- The contents of the local `info` of `get_framebuffer_info` before any assignment. -/
  uninitialized : framebuffer_info
  /-- The value of `cap.isOpened()`. -/
  capOpened : Bool

/-- `get_framebuffer_info`: the fields are assigned only when the device
opened and the query succeeded. -/
def get_framebuffer_info (st : Startup) : framebuffer_info :=
  if st.fd ≥ 0 then
    if st.ioctlResult = 0 then
      { xres_virtual := st.screen_info.xres_virtual
        bits_per_pixel := st.screen_info.bits_per_pixel }
    else st.uninitialized
  else st.uninitialized

/-- How a run over finitely many camera frames stands at its end. -/
inductive Exit where
  /-- `main` returned this status. -/
  | status (code : Nat)
  /-- A `cv::Exception` left `main`. -/
  | aborted
  /-- The render loop is waiting for the next frame. -/
  | running
  deriving DecidableEq

/-- `main`, run on the frames the camera delivers. -/
def main (st : Startup) (env : Env) (frames : List Mat) : List Event × Exit :=
  let fb_info := get_framebuffer_info st
  if ¬ st.capOpened then
    ([Event.cerr "Could not open video device."], Exit.status 1)
  else
    let s := renderLoop env fb_info frames
    (Event.cout "Successfully opened video device." :: s.events,
      if s.raised then Exit.aborted else Exit.running)

/-! ## Derived notions used in the statements -/

/-- The events of the threshold levels `thre, thre + 20, ..` up to index `k`: one
binarization and one direct decode step each. -/
def levelEvents (env : Env) (img : Mat) (thre : Int) (k : Nat) : List Event :=
  (List.range (k + 1)).flatMap fun j =>
    Event.binarize (thre + 20 * (j : Int))
      :: (GetQRInBinImg env (thresholdBinary img (thre + 20 * (j : Int)))).2

/-- The calls of a scanline-by-scanline write: for each row `r = 0..h-1`, in
increasing order, a seek to byte offset `r * vw * bytes` followed by a write of
`w * bytes` bytes, the bytes being `rowData r`. -/
def scanlineEvents (vw bytes w h : Nat) (rowData : Nat → List Nat) : List Event :=
  (List.range h).flatMap fun r =>
    [Event.seekp ((r * vw * bytes : Nat) : Int), Event.write (w * bytes) (rowData r)]

/-- The offsets of the seeks among the events, in order. -/
def seekOffsets : List Event → List Int
  | [] => []
  | Event.seekp off :: evs => off :: seekOffsets evs
  | _ :: evs => seekOffsets evs

/-- The lengths of the writes among the events, in order. -/
def writeLengths : List Event → List Nat
  | [] => []
  | Event.write len _ :: evs => len :: writeLengths evs
  | _ :: evs => writeLengths evs

/-- The 16-bit write path as C1 words it: the writer does exactly the
scanline calls with 2 bytes per pixel, and every row buffer has `w * 2` bytes. -/
def WritesRows16 (fb_info : framebuffer_info) (frame : Mat) : Prop :=
  ∃ rowData : Nat → List Nat,
    render fb_info frame =
      ⟨scanlineEvents fb_info.xres_virtual 2 frame.cols frame.rows rowData, false⟩ ∧
    ∀ r, r < frame.rows → (rowData r).length = frame.cols * 2

/-- The 32-bit write path as C2 words it: the writer does exactly the
scanline calls with 4 bytes per pixel, every row buffer has `w * 4` bytes, and
the 4 bytes of each pixel are its three channel bytes in order, then 255. -/
def WritesRows32 (fb_info : framebuffer_info) (frame : Mat) : Prop :=
  ∃ rowData : Nat → List Nat,
    render fb_info frame =
      ⟨scanlineEvents fb_info.xres_virtual 4 frame.cols frame.rows rowData, false⟩ ∧
    ∀ r, r < frame.rows →
      (rowData r).length = frame.cols * 4 ∧
      ∀ c, c < frame.cols →
        (∀ k, k < 3 → (rowData r)[4 * c + k]? = some (frame.data r c k)) ∧
        (rowData r)[4 * c + 3]? = some 255

/-- A 2x2 frame of three 8-bit channels. -/
def sampleFrame : Mat :=
  { rows := 2, cols := 2, channels := 3, depth := CV_8U,
    data := fun r c k => 100 + 10 * r + 3 * c + k }

/-- The frame of the scenario of the specification: 320 wide, 240 high. -/
def scenarioFrame : Mat :=
  { rows := 240, cols := 320, channels := 3, depth := CV_8U,
    data := fun r c k => (r + 2 * c + k) % 256 }

/-- A camera frame of 640 x 480 pixels. -/
def capturedFrame : Mat :=
  { rows := 480, cols := 640, channels := 3, depth := CV_8U,
    data := fun r c k => (7 * r + 3 * c + k) % 256 }

/-- The 640 x 480 camera frame after crop, transpose and flip. -/
def normalizedFrame : Mat :=
  flipHorizontal (transpose
    ⟨240, 320, 3, CV_8U, fun r c k => capturedFrame.data (120 + r) (160 + c) k⟩)

/-- What the camera delivers when it has no frame: a matrix without elements. -/
def emptyFrame : Mat :=
  { rows := 0, cols := 0, channels := 3, depth := CV_8U, data := fun _ _ _ => 0 }

/-- Collaborators for the samples: the scan finds the symbol "hello" in an
image whose first element is 0, Otsu selects 90, the opening changes nothing. -/
def sampleEnv : Env :=
  { scan := fun m => if m.data 0 0 0 = 0 then ["hello"] else []
    otsu := fun _ => 90
    morphOpen := fun m => m }

/-- A good stream at position 0 on a device whose bytes are all 0. -/
def blankDevice : Ofstream := ⟨false, 0, fun _ => 0⟩

/-! ## Lemmas on the scanner -/

theorem loop_done (env : Env) (img : Mat) (result : String) (thre : Int)
    (h : ¬ (result.isEmpty ∧ thre < 255)) :
    GetQR.loop env img result thre = (result, []) := by
  rw [GetQR.loop, if_neg h]

theorem loop_round (env : Env) (img : Mat) (result : String) (thre : Int)
    (h : result.isEmpty ∧ thre < 255) :
    GetQR.loop env img result thre =
      ((GetQR.loop env img (GetQRInBinImg env (thresholdBinary img thre)).1 (thre + 20)).1,
        Event.binarize thre :: ((GetQRInBinImg env (thresholdBinary img thre)).2 ++
          (GetQR.loop env img (GetQRInBinImg env (thresholdBinary img thre)).1 (thre + 20)).2)) := by
  rw [GetQR.loop, if_pos h]

theorem levelEvents_zero (env : Env) (img : Mat) (thre : Int) :
    levelEvents env img thre 0 =
      Event.binarize thre :: (GetQRInBinImg env (thresholdBinary img thre)).2 := by
  simp [levelEvents, List.range_succ]

theorem levelEvents_succ (env : Env) (img : Mat) (thre : Int) (k : Nat) :
    levelEvents env img thre (k + 1) =
      Event.binarize thre :: ((GetQRInBinImg env (thresholdBinary img thre)).2 ++
        levelEvents env img (thre + 20) k) := by
  unfold levelEvents
  rw [List.range_succ_eq_map (k + 1), List.flatMap_cons, List.flatMap_map]
  have hfun : ∀ j : Nat, thre + 20 + 20 * (j : Int) = thre + 20 * ((Nat.succ j : Nat) : Int) := by
    intro j
    push_cast
    ring
  simp [hfun]

/-- A hit at level `k` after misses at the levels below: the loop returns the
string of level `k` and has visited exactly the levels `0..k`. -/
theorem loop_hit (env : Env) (img : Mat) (k : Nat) :
    ∀ thre : Int, thre + 20 * (k : Int) < 255 →
      (∀ j : Nat, j < k →
        (GetQRInBinImg env (thresholdBinary img (thre + 20 * (j : Int)))).1 = "") →
      (GetQRInBinImg env (thresholdBinary img (thre + 20 * (k : Int)))).1 ≠ "" →
      GetQR.loop env img "" thre =
        ((GetQRInBinImg env (thresholdBinary img (thre + 20 * (k : Int)))).1,
          levelEvents env img thre k) := by
  induction k with
  | zero =>
    intro thre hlt _ hne
    simp only [Nat.cast_zero, mul_zero, add_zero] at hlt hne ⊢
    have hfirst : ("".isEmpty ∧ thre < 255) := ⟨rfl, hlt⟩
    have hstop : ¬ ((GetQRInBinImg env (thresholdBinary img thre)).1.isEmpty ∧ thre + 20 < 255) := by
      intro hc
      exact hne ((String.isEmpty_iff _).1 hc.1)
    rw [loop_round env img "" thre hfirst, loop_done env img _ _ hstop, levelEvents_zero]
    simp
  | succ k ih =>
    intro thre hlt hmiss hne
    have hlt2 : thre + 20 + 20 * (k : Int) < 255 := by push_cast at hlt; omega
    have hfirst : ("".isEmpty ∧ thre < 255) := ⟨rfl, by push_cast at hlt; omega⟩
    have h0 : (GetQRInBinImg env (thresholdBinary img thre)).1 = "" := by
      have := hmiss 0 (Nat.succ_pos k)
      simpa using this
    have hidx : ∀ j : Nat, thre + 20 + 20 * (j : Int) = thre + 20 * ((j + 1 : Nat) : Int) := by
      intro j
      push_cast
      ring
    have hmiss2 : ∀ j : Nat, j < k →
        (GetQRInBinImg env (thresholdBinary img (thre + 20 + 20 * (j : Int)))).1 = "" := by
      intro j hj
      rw [hidx j]
      exact hmiss (j + 1) (Nat.succ_lt_succ hj)
    have hne2 : (GetQRInBinImg env (thresholdBinary img (thre + 20 + 20 * (k : Int)))).1 ≠ "" := by
      rw [hidx k]
      exact hne
    rw [loop_round env img "" thre hfirst, h0, ih (thre + 20) hlt2 hmiss2 hne2,
      levelEvents_succ, hidx k]

/-- Misses at every level below 255: the loop returns the empty string. -/
theorem loop_miss (env : Env) (img : Mat) (n : Nat) :
    ∀ thre : Int, (255 - thre).toNat ≤ n →
      (∀ j : Nat, thre + 20 * (j : Int) < 255 →
        (GetQRInBinImg env (thresholdBinary img (thre + 20 * (j : Int)))).1 = "") →
      (GetQR.loop env img "" thre).1 = "" := by
  induction n with
  | zero =>
    intro thre hn _
    have hstop : ¬ ("".isEmpty ∧ thre < 255) := by
      intro hc
      omega
    rw [loop_done env img "" thre hstop]
  | succ n ih =>
    intro thre hn hmiss
    by_cases hlt : thre < 255
    · have hfirst : ("".isEmpty ∧ thre < 255) := ⟨rfl, hlt⟩
      have h0 : (GetQRInBinImg env (thresholdBinary img thre)).1 = "" := by
        have := hmiss 0 (by simpa using hlt)
        simpa using this
      rw [loop_round env img "" thre hfirst, h0]
      apply ih (thre + 20) (by omega)
      intro j hj
      have hidx : thre + 20 + 20 * (j : Int) = thre + 20 * ((j + 1 : Nat) : Int) := by
        push_cast
        ring
      rw [hidx] at hj ⊢
      exact hmiss (j + 1) hj
    · have hstop : ¬ ("".isEmpty ∧ thre < 255) := fun hc => hlt hc.2
      rw [loop_done env img "" thre hstop]

theorem GetQRInBinImg_no_threshold (env : Env) (binImg : Mat) :
    (GetQRInBinImg env binImg).2.countP Event.isThreshold = 0 := by
  by_cases h : (ZbarDecoder env binImg).isEmpty <;> simp [GetQRInBinImg, h, Event.isThreshold]

theorem GetQRInBinImg_events (env : Env) (binImg : Mat) :
    ∀ e ∈ (GetQRInBinImg env binImg).2, ∃ m : Mat, e = Event.decode m ∨ e = Event.morphOpen m := by
  intro e he
  by_cases h : (ZbarDecoder env binImg).isEmpty
  · simp only [GetQRInBinImg, h, if_true, List.mem_cons, List.mem_singleton,
      List.not_mem_nil, or_false] at he
    rcases he with he | he | he
    · exact ⟨_, Or.inl he⟩
    · exact ⟨_, Or.inr he⟩
    · exact ⟨_, Or.inl he⟩
  · simp only [GetQRInBinImg, h, List.mem_singleton] at he
    exact ⟨_, Or.inl (by simpa using he)⟩

/-- The loop calls `threshold` at most once per level below 255. -/
theorem loop_threshold_count (env : Env) (img : Mat) (n : Nat) :
    ∀ (result : String) (thre : Int), (255 - thre).toNat ≤ n →
      ((GetQR.loop env img result thre).2.countP Event.isThreshold : Int)
        ≤ (255 - thre + 19) / 20 ∨
      (GetQR.loop env img result thre).2 = [] := by
  induction n with
  | zero =>
    intro result thre hn
    right
    rw [loop_done env img result thre (by intro hc; omega)]
  | succ n ih =>
    intro result thre hn
    by_cases hc : result.isEmpty ∧ thre < 255
    · left
      rw [loop_round env img result thre hc]
      simp only [List.countP_cons, List.countP_append, GetQRInBinImg_no_threshold,
        Event.isThreshold, if_true, zero_add]
      rcases ih (GetQRInBinImg env (thresholdBinary img thre)).1 (thre + 20) (by omega) with h | h
      · push_cast
        omega
      · rw [h]
        simp only [List.countP_nil]
        push_cast
        omega
    · right
      rw [loop_done env img result thre hc]

/-- Every binarization of the loop is at a threshold from the start value on and below 255. -/
theorem loop_binarize_range (env : Env) (img : Mat) (n : Nat) :
    ∀ (result : String) (thre : Int), (255 - thre).toNat ≤ n →
      ∀ e ∈ (GetQR.loop env img result thre).2, ∀ t : Int,
        (e = Event.binarize t → thre ≤ t ∧ t < 255) ∧ e ≠ Event.otsu t := by
  induction n with
  | zero =>
    intro result thre hn e he
    rw [loop_done env img result thre (by intro hc; omega)] at he
    simp at he
  | succ n ih =>
    intro result thre hn e he t
    by_cases hc : result.isEmpty ∧ thre < 255
    · rw [loop_round env img result thre hc] at he
      rcases List.mem_cons.1 he with h | h
      · subst h
        refine ⟨fun ht => ?_, by simp⟩
        have : thre = t := by simpa using ht
        omega
      · rcases List.mem_append.1 h with h | h
        · have hk := GetQRInBinImg_events env (thresholdBinary img thre) e h
          rcases hk with ⟨m, hm | hm⟩ <;> subst hm <;> simp
        · have := ih _ (thre + 20) (by omega) e h t
          exact ⟨fun ht => ⟨by have := (this.1 ht).1; omega, (this.1 ht).2⟩, this.2⟩
    · rw [loop_done env img result thre hc] at he
      simp at he


theorem levelEvents_binarize (env : Env) (img : Mat) (k : Nat) :
    ∀ (thre t : Int), Event.binarize t ∈ levelEvents env img thre k →
      t ≤ thre + 20 * (k : Int) := by
  induction k with
  | zero =>
    intro thre t h
    rw [levelEvents_zero] at h
    rcases List.mem_cons.1 h with h | h
    · have : t = thre := by simpa using h
      simp [this]
    · rcases GetQRInBinImg_events env _ _ h with ⟨m, hm | hm⟩ <;> simp at hm
  | succ k ih =>
    intro thre t h
    rw [levelEvents_succ] at h
    rcases List.mem_cons.1 h with h | h
    · have : t = thre := by simpa using h
      push_cast
      omega
    · rcases List.mem_append.1 h with h | h
      · rcases GetQRInBinImg_events env _ _ h with ⟨m, hm | hm⟩ <;> simp at hm
      · have := ih (thre + 20) t h
        push_cast
        omega

theorem count_le_ceil (c T0 : Int) (h : c ≤ (255 - T0 + 19) / 20) :
    c ≤ ⌈((255 - T0 : Int) : ℚ) / 20⌉ := by
  have h1 : (255 - T0 + 19) / 20 - 1 < ⌈((255 - T0 : Int) : ℚ) / 20⌉ := by
    rw [Int.lt_ceil]
    have h2 : 20 * ((255 - T0 + 19) / 20) ≤ 255 - T0 + 19 := Int.mul_ediv_self_le (by norm_num)
    have h3 : ((20 * ((255 - T0 + 19) / 20) : Int) : ℚ) ≤ ((255 - T0 + 19 : Int) : ℚ) := by
      exact_mod_cast h2
    push_cast at h3 ⊢
    linarith
  omega

/-! ## Lemmas on the writer -/

theorem toFloat32_exact (n : Nat) (h : n ≤ 16777216) : toFloat32 n = n := by
  rcases Nat.lt_or_ge n 16777216 with hlt | hge
  · have hlt1 : n < 16777216 * 1 := by omega
    simp [toFloat32, toFloat32Aux, hlt1, roundEven, Nat.mod_one]
  · have : n = 16777216 := by omega
    subst this
    decide

/-- Above 2^24 the `float` members of `cv::Size2f` no longer hold every
dimension: 16777217 is kept as 16777216 and 16777219 as 16777220. -/
theorem toFloat32_rounds :
    toFloat32 16777217 = 16777216 ∧ toFloat32 16777219 = 16777220 := by
  decide

theorem toInt32_of_nat (n : Nat) (h : n < 2147483648) : toInt32 (n : Int) = (n : Int) := by
  unfold toInt32
  omega

/-- The bound on the rounds of `scanlines` is never what stops the loop: with
the height converted from `h`, any bound of at least `h - y` gives the same calls. -/
theorem scanlines_fuel (compat : Mat) (fw : Int) (bytes fwidth h : Nat) :
    ∀ (fuel y : Nat), y ≤ h → h - y ≤ fuel →
      scanlines compat fw bytes fwidth (toFloat32 h) fuel y =
        scanlines compat fw bytes fwidth (toFloat32 h) (h - y) y := by
  intro fuel
  induction fuel with
  | zero =>
    intro y hy hf
    have : h - y = 0 := by omega
    rw [this]
  | succ f ih =>
    intro y hy hf
    rcases Nat.eq_or_lt_of_le hy with heq | hlt
    · subst heq
      simp [scanlines]
    · have hd : h - y = (h - (y + 1)) + 1 := by omega
      rw [hd]
      simp only [scanlines]
      rw [ih (y + 1) (by omega) (by omega)]

theorem scanlines_exact (compat : Mat) (fw : Int) (bytes fwidth fheight : Nat)
    (hh : fheight ≤ 16777216) :
    ∀ (fuel y : Nat), y ≤ fheight → fheight - y ≤ fuel →
      scanlines compat fw bytes fwidth fheight fuel y =
        (List.range' y (fheight - y)).flatMap fun r =>
          [Event.seekp (mulInt32 (mulInt32 r fw) bytes),
            Event.write (fwidth * bytes) (compat.ptr r (fwidth * bytes))] := by
  intro fuel
  induction fuel with
  | zero =>
    intro y hy hf
    have : fheight - y = 0 := by omega
    simp [scanlines, this]
  | succ f ih =>
    intro y hy hf
    have hfy : toFloat32 y = y := toFloat32_exact y (by omega)
    rcases Nat.eq_or_lt_of_le hy with heq | hlt
    · subst heq
      simp [scanlines, hfy]
    · have hd : fheight - y = (fheight - (y + 1)) + 1 := by omega
      rw [hd, List.range'_succ, List.flatMap_cons]
      simp only [scanlines, hfy, hlt, if_true]
      rw [ih (y + 1) (by omega) (by omega)]
      simp

theorem offset_exact (r h vw bytes : Nat) (hr : r < h) (hb : 0 < bytes)
    (hoff : (h - 1) * vw * bytes < 2147483648) :
    mulInt32 (mulInt32 (r : Int) (toInt32 (vw : Int))) (bytes : Int)
      = ((r * vw * bytes : Nat) : Int) := by
  have hle : r * vw * bytes ≤ (h - 1) * vw * bytes :=
    Nat.mul_le_mul_right _ (Nat.mul_le_mul_right _ (by omega))
  have hlt : r * vw * bytes < 2147483648 := lt_of_le_of_lt hle hoff
  rcases Nat.eq_zero_or_pos r with h0 | hpos
  · subst h0
    simp [mulInt32, toInt32]
  · have h1 : r * vw ≤ r * vw * bytes := Nat.le_mul_of_pos_right _ hb
    have h2 : vw ≤ r * vw := Nat.le_mul_of_pos_left _ hpos
    have hvw : toInt32 (vw : Int) = (vw : Int) := toInt32_of_nat vw (by omega)
    have hp : mulInt32 (r : Int) (vw : Int) = ((r * vw : Nat) : Int) := by
      unfold mulInt32
      rw [← Nat.cast_mul]
      exact toInt32_of_nat _ (by omega)
    rw [hvw, hp]
    unfold mulInt32
    rw [← Nat.cast_mul]
    exact toInt32_of_nat _ hlt

/-- The scanline loop on a frame whose dimensions and offsets are in range. -/
theorem scanlines_in_range (compat : Mat) (vw bytes w h : Nat) (hb : 0 < bytes)
    (hw : w ≤ 16777216) (hh : h ≤ 16777216)
    (hoff : (h - 1) * vw * bytes < 2147483648) :
    scanlines compat (toInt32 (vw : Int)) bytes (toFloat32 w) (toFloat32 h) h 0 =
      scanlineEvents vw bytes w h fun r => compat.ptr r (w * bytes) := by
  rw [toFloat32_exact w hw, toFloat32_exact h hh,
    scanlines_exact compat _ bytes w h hh h 0 (Nat.zero_le _) (by omega)]
  unfold scanlineEvents
  rw [Nat.sub_zero, List.range_eq_range']
  apply List.flatMap_congr
  intro r hr
  have hr2 : r < h := by
    have := List.mem_range'_1.1 hr
    omega
  rw [offset_exact r h vw bytes hr2 hb hoff]

theorem ptr_length (m : Mat) (y len : Nat) : (m.ptr y len).length = len := by
  simp [Mat.ptr]

theorem ptr_getElem (m : Mat) (y len i : Nat) (hi : i < len) :
    (m.ptr y len)[i]? = some (m.byteAt (y * m.step + i)) := by
  simp [Mat.ptr, List.getElem?_range hi]

/-- The frame the 32-bit path builds: the three channels, then the constant 255. -/
theorem merge_padded (frame : Mat) (hc : frame.channels = 3) (hd : frame.depth = CV_8U)
    (hw : frame.cols ≤ 16777216) (hh : frame.rows ≤ 16777216) :
    ∃ compat : Mat,
      merge (split frame ++ [constPlane (toFloat32 frame.cols) (toFloat32 frame.rows) 255])
        = some compat ∧
      compat.cols = frame.cols ∧ compat.channels = 4 ∧
      (∀ r c k, k < 3 → compat.data r c k = frame.data r c k) ∧
      ∀ r c, compat.data r c 3 = 255 := by
  rw [toFloat32_exact _ hw, toFloat32_exact _ hh]
  simp only [split, hc, List.range_succ, List.range_zero, List.nil_append, List.map_cons,
    List.map_nil, List.cons_append, List.map_append, merge, constPlane]
  rw [if_pos (by simp [hd])]
  refine ⟨_, rfl, rfl, by simp, ?_, ?_⟩
  · intro r c k hk
    interval_cases k <;> simp
  · intro r c
    simp

theorem byteAt_pixel (m : Mat) (r c k : Nat) (hc : c < m.cols) (hk : k < m.channels) :
    m.byteAt (r * m.step + (m.channels * c + k)) = m.data r c k := by
  have hlt : m.channels * c + k < m.step := by
    unfold Mat.step
    calc m.channels * c + k < m.channels * c + m.channels := by omega
      _ = m.channels * (c + 1) := by ring
      _ ≤ m.channels * m.cols := Nat.mul_le_mul_left _ hc
      _ = m.cols * m.channels := Nat.mul_comm _ _
  have hpos : 0 < m.step := by omega
  have hch : 0 < m.channels := by omega
  have hstep : m.step = m.channels * m.cols := by
    unfold Mat.step
    exact Nat.mul_comm _ _
  have h1 : (r * m.step + (m.channels * c + k)) / m.step = r := by
    rw [Nat.add_comm, Nat.add_mul_div_right _ _ hpos, Nat.div_eq_of_lt hlt, Nat.zero_add]
  have h2 : (r * m.step + (m.channels * c + k)) % m.step = m.channels * c + k := by
    rw [Nat.add_comm, Nat.add_mul_mod_self_right, Nat.mod_eq_of_lt hlt]
  have h3 : (m.channels * c + k) / m.channels = c := by
    rw [Nat.add_comm, Nat.add_mul_div_left _ _ hch, Nat.div_eq_of_lt hk, Nat.zero_add]
  have h4 : (r * m.step + (m.channels * c + k)) % m.channels = k := by
    rw [hstep, show r * (m.channels * m.cols) + (m.channels * c + k)
        = k + m.channels * (r * m.cols + c) by ring, Nat.add_mul_mod_self_left,
      Nat.mod_eq_of_lt hk]
  unfold Mat.byteAt
  rw [h1, h2, h3, h4]

/-- The writer at depth 16, dimensions and offsets in range. -/
theorem framebufferWrite_16 (fb_info : framebuffer_info) (frame : Mat)
    (hb : fb_info.bits_per_pixel = 16)
    (hw : frame.cols ≤ 16777216) (hh : frame.rows ≤ 16777216)
    (hoff : (frame.rows - 1) * fb_info.xres_virtual * 2 < 2147483648) :
    framebufferWrite fb_info frame =
      ⟨scanlineEvents fb_info.xres_virtual 2 frame.cols frame.rows
        fun r => (cvtColorBGR565 frame).ptr r (frame.cols * 2), false⟩ := by
  have h16 : toInt32 ((16 : Nat) : Int) = 16 := by decide
  simp only [framebufferWrite, hb, h16, if_true]
  rw [scanlines_in_range _ _ 2 _ _ (by norm_num) hw hh hoff]

/-- The writer at depth 32, dimensions and offsets in range. -/
theorem framebufferWrite_32 (fb_info : framebuffer_info) (frame : Mat)
    (hc : frame.channels = 3) (hd : frame.depth = CV_8U) (hb : fb_info.bits_per_pixel = 32)
    (hw : frame.cols ≤ 16777216) (hh : frame.rows ≤ 16777216)
    (hoff : (frame.rows - 1) * fb_info.xres_virtual * 4 < 2147483648) :
    ∃ compat : Mat,
      framebufferWrite fb_info frame =
        ⟨scanlineEvents fb_info.xres_virtual 4 frame.cols frame.rows
          fun r => compat.ptr r (frame.cols * 4), false⟩ ∧
      compat.cols = frame.cols ∧ compat.channels = 4 ∧
      (∀ r c k, k < 3 → compat.data r c k = frame.data r c k) ∧
      ∀ r c, compat.data r c 3 = 255 := by
  obtain ⟨compat, hm, hrest⟩ := merge_padded frame hc hd hw hh
  refine ⟨compat, ?_, hrest⟩
  have h32 : toInt32 ((32 : Nat) : Int) = 32 := by decide
  have hne : (32 : Int) ≠ 16 := by decide
  simp only [framebufferWrite, hb, h32, hne, if_false, if_true, hm]
  rw [scanlines_in_range _ _ 4 _ _ (by norm_num) hw hh hoff]

theorem render_format_ok (fb_info : framebuffer_info) (frame : Mat)
    (hc : frame.channels = 3) (hd : frame.depth = CV_8U) :
    render fb_info frame = framebufferWrite fb_info frame := by
  simp [render, hc, hd]

theorem seekOffsets_scanlineEvents (vw bytes w : Nat) (rowData : Nat → List Nat) (l : List Nat) :
    seekOffsets (l.flatMap fun r =>
      [Event.seekp ((r * vw * bytes : Nat) : Int), Event.write (w * bytes) (rowData r)])
      = l.map fun r => ((r * vw * bytes : Nat) : Int) := by
  induction l with
  | nil => rfl
  | cons a l ih =>
    rw [List.flatMap_cons, List.map_cons]
    simp only [List.cons_append, List.nil_append, seekOffsets]
    exact congrArg _ ih

theorem GetQR_no_device (env : Env) (img : Mat) :
    (GetQR env img).2.countP Event.isDevice = 0 := by
  rw [List.countP_eq_zero]
  intro e he
  simp only [GetQR, List.mem_cons] at he
  rcases he with he | he
  · subst he
    simp [Event.isDevice]
  · have hall : ∀ (n : Nat) (result : String) (thre : Int), (255 - thre).toNat ≤ n →
        ∀ e ∈ (GetQR.loop env img result thre).2, ¬ Event.isDevice e = true := by
      intro n
      induction n with
      | zero =>
        intro result thre hn e he
        rw [loop_done env img result thre (by intro hc; omega)] at he
        simp at he
      | succ n ih =>
        intro result thre hn e he
        by_cases hc : result.isEmpty ∧ thre < 255
        · rw [loop_round env img result thre hc] at he
          rcases List.mem_cons.1 he with h | h
          · subst h
            simp [Event.isDevice]
          · rcases List.mem_append.1 h with h | h
            · rcases GetQRInBinImg_events env _ e h with ⟨m, hm | hm⟩ <;> subst hm <;>
                simp [Event.isDevice]
            · exact ih _ (thre + 20) (by omega) e h
        · rw [loop_done env img result thre hc] at he
          simp at he
    exact hall _ "" (env.otsu img) (le_refl _) e he

/-! ## Lemmas on the stream -/

theorem normalize_ok (F : Mat) (hw : 480 ≤ F.cols) (hh : 360 ≤ F.rows) :
    normalize F = some (flipHorizontal (transpose
      ⟨240, 320, F.channels, F.depth, fun r c k => F.data (120 + r) (160 + c) k⟩)) := by
  have hin : 160 + 320 ≤ F.cols ∧ 120 + 240 ≤ F.rows := ⟨by omega, by omega⟩
  simp [normalize, Mat.roi, hin]

theorem iteration_normalized (env : Env) (fb_info : framebuffer_info) (captured frame : Mat)
    (hne : captured.empty = false) (hnorm : normalize captured = some frame) :
    iteration env fb_info captured =
      ⟨(GetQR env frame).2 ++ [Event.cout (GetQR env frame).1] ++ (render fb_info frame).events,
        (render fb_info frame).raised⟩ := by
  simp [iteration, hne, hnorm]

theorem not_empty_of_large (F : Mat) (hw : 480 ≤ F.cols) (hh : 360 ≤ F.rows) :
    F.empty = false := by
  have hpos : 0 < F.rows * F.cols := Nat.mul_pos (by omega) (by omega)
  simp only [Mat.empty, beq_eq_false_iff_ne, ne_eq]
  omega

theorem countP_device_scanlineEvents (vw bytes w : Nat) (rowData : Nat → List Nat) (h : Nat) :
    (scanlineEvents vw bytes w h rowData).countP Event.isDevice = 2 * h := by
  unfold scanlineEvents
  induction h with
  | zero => rfl
  | succ n ih =>
    rw [List.range_succ, List.flatMap_append, List.countP_append, ih]
    simp [Event.isDevice]
    omega

/-! ## The scanner: claims -/

/-- C8: `GetQRInBinImg` is a two-stage direct decode. When the decoder returns
a non-empty string on the binary image, that string is the result and the only
call made is that one decoder call (no opening). Otherwise the image is opened
once, the decoder is called once more, on the opened image, and its result
(possibly empty) is returned. In both cases there are at most two decoder calls
and at most one opening. -/
theorem GetQRInBinImg_two_stage (env : Env) (binImg : Mat) :
    (ZbarDecoder env binImg ≠ "" →
      GetQRInBinImg env binImg = (ZbarDecoder env binImg, [Event.decode binImg])) ∧
    (ZbarDecoder env binImg = "" →
      GetQRInBinImg env binImg =
        (ZbarDecoder env (env.morphOpen binImg),
          [Event.decode binImg, Event.morphOpen binImg,
            Event.decode (env.morphOpen binImg)])) ∧
    (GetQRInBinImg env binImg).2.countP Event.isDecode ≤ 2 ∧
    (GetQRInBinImg env binImg).2.countP Event.isMorphOpen ≤ 1 := by
  by_cases h : (ZbarDecoder env binImg).isEmpty
  · have he : ZbarDecoder env binImg = "" := (String.isEmpty_iff _).1 h
    refine ⟨fun hne => absurd he hne, fun _ => ?_, ?_, ?_⟩ <;>
      simp [GetQRInBinImg, h, Event.isDecode, Event.isMorphOpen]
  · have hne : ZbarDecoder env binImg ≠ "" := fun he => h ((String.isEmpty_iff _).2 he)
    refine ⟨fun _ => ?_, fun he => absurd he hne, ?_, ?_⟩ <;>
      simp [GetQRInBinImg, h, Event.isDecode, Event.isMorphOpen]

/-- C8 at the sample: on the sample frame binarized at 90 the decoder finds
nothing, so the second stage runs, and its result is the decoder's on the opening. -/
theorem GetQRInBinImg_two_stage_witness :
    ZbarDecoder sampleEnv (thresholdBinary sampleFrame 90) = "" ∧
    GetQRInBinImg sampleEnv (thresholdBinary sampleFrame 90) =
      (ZbarDecoder sampleEnv (sampleEnv.morphOpen (thresholdBinary sampleFrame 90)),
        [Event.decode (thresholdBinary sampleFrame 90),
          Event.morphOpen (thresholdBinary sampleFrame 90),
          Event.decode (sampleEnv.morphOpen (thresholdBinary sampleFrame 90))]) :=
  ⟨by decide,
    (GetQRInBinImg_two_stage sampleEnv (thresholdBinary sampleFrame 90)).2.1 (by decide)⟩

/-- C4: first-match policy of `GetQR`. With `T0` the Otsu threshold: if `k` is
the least index with `T0 + 20 * k < 255` at which the direct decode step on the
image binarized at `T0 + 20 * k` returns a non-empty string, then `GetQR`
returns exactly that string, its calls are the Otsu call followed by one
binarization and one direct decode step for each of the levels `0..k` in order,
and so no binarization is at a threshold above `T0 + 20 * k`. If there is no
such index, `GetQR` returns the empty string. -/
theorem GetQR_first_match (env : Env) (img : Mat) :
    (∀ k : Nat, env.otsu img + 20 * (k : Int) < 255 →
      (GetQRInBinImg env (thresholdBinary img (env.otsu img + 20 * (k : Int)))).1 ≠ "" →
      (∀ j : Nat, j < k →
        (GetQRInBinImg env (thresholdBinary img (env.otsu img + 20 * (j : Int)))).1 = "") →
      (GetQR env img).1 =
          (GetQRInBinImg env (thresholdBinary img (env.otsu img + 20 * (k : Int)))).1 ∧
        (GetQR env img).2 = Event.otsu (env.otsu img) :: levelEvents env img (env.otsu img) k ∧
        ∀ t : Int, Event.binarize t ∈ (GetQR env img).2 → t ≤ env.otsu img + 20 * (k : Int)) ∧
    ((∀ k : Nat, env.otsu img + 20 * (k : Int) < 255 →
        (GetQRInBinImg env (thresholdBinary img (env.otsu img + 20 * (k : Int)))).1 = "") →
      (GetQR env img).1 = "") := by
  constructor
  · intro k hlt hne hmiss
    have h := loop_hit env img k (env.otsu img) hlt hmiss hne
    refine ⟨?_, ?_, ?_⟩
    · simp [GetQR, h]
    · simp [GetQR, h]
    · intro t ht
      have ht2 : Event.binarize t ∈ levelEvents env img (env.otsu img) k := by
        simpa [GetQR, h] using ht
      exact levelEvents_binarize env img k _ t ht2
  · intro hmiss
    have h := loop_miss env img (255 - env.otsu img).toNat (env.otsu img) (le_refl _) hmiss
    simpa [GetQR] using h

/-- C4 at the sample: Otsu selects 90, the level 90 gives nothing, the level
110 gives "hello", which is what `GetQR` returns. -/
theorem GetQR_first_match_witness : (GetQR sampleEnv sampleFrame).1 = "hello" :=
  ((GetQR_first_match sampleEnv sampleFrame).1 1 (by decide) (by decide)
    (by
      intro j hj
      have hj0 : j = 0 := by omega
      subst hj0
      decide)).1

/-- C5: bounded threshold search of `GetQR`. `GetQR` is a total function (the
loop is defined by recursion on `255 - thre`). For an Otsu threshold `T0` of at
most 255: every threshold at which `threshold` is called is below `255 + 20`,
the number of `threshold` calls is at most `ceil((255 - T0) / 20) + 1`, and
when `T0 >= 255` the result is the empty string. -/
theorem GetQR_bounded_search (env : Env) (img : Mat) (h255 : env.otsu img ≤ 255) :
    (∀ e ∈ (GetQR env img).2, ∀ t : Int,
      (e = Event.otsu t ∨ e = Event.binarize t) → t < 255 + 20) ∧
    ((GetQR env img).2.countP Event.isThreshold : Int)
      ≤ ⌈((255 - env.otsu img : Int) : ℚ) / 20⌉ + 1 ∧
    (255 ≤ env.otsu img → (GetQR env img).1 = "") := by
  refine ⟨?_, ?_, ?_⟩
  · intro e he t ht
    simp only [GetQR, List.mem_cons] at he
    rcases he with he | he
    · subst he
      rcases ht with ht | ht
      · have : env.otsu img = t := by simpa using ht
        omega
      · simp at ht
    · have hr := loop_binarize_range env img _ "" (env.otsu img) (le_refl _) e he t
      rcases ht with ht | ht
      · exact absurd ht hr.2
      · have := hr.1 ht
        omega
  · have hc := loop_threshold_count env img _ "" (env.otsu img) (le_refl _)
    have hle : ((GetQR.loop env img "" (env.otsu img)).2.countP Event.isThreshold : Int)
        ≤ ⌈((255 - env.otsu img : Int) : ℚ) / 20⌉ := by
      apply count_le_ceil
      rcases hc with hc | hc
      · exact hc
      · rw [hc]
        simp only [List.countP_nil, Nat.cast_zero]
        omega
    simp only [GetQR, List.countP_cons, Event.isThreshold, if_true]
    push_cast at hle ⊢
    omega
  · intro hge
    have hstop : ¬ ("".isEmpty ∧ env.otsu img < 255) := by
      intro hc
      omega
    simp [GetQR, loop_done env img "" (env.otsu img) hstop]

/-- C5 at the sample, where Otsu selects 90: at most `ceil(165 / 20) + 1` calls. -/
theorem GetQR_bounded_search_witness :
    ((GetQR sampleEnv sampleFrame).2.countP Event.isThreshold : Int)
      ≤ ⌈((255 - sampleEnv.otsu sampleFrame : Int) : ℚ) / 20⌉ + 1 :=
  (GetQR_bounded_search sampleEnv sampleFrame (by decide)).2.1

/-! ## The writer: claims -/

/-- C1, as stated, fails: with `bitsPerPixel = 16` and virtual width
4294967295 the `int` the code keeps the width in is -1, so the seek for row 1
of the 2x2 sample frame (3 channels, 8 bits) goes to offset -2, not to
`1 * 4294967295 * 2`. -/
theorem render_depth16_counterexample :
    sampleFrame.channels = 3 ∧ sampleFrame.depth = CV_8U ∧
    seekOffsets (render ⟨16, 4294967295⟩ sampleFrame).events = [0, -2] ∧
    ¬ WritesRows16 ⟨16, 4294967295⟩ sampleFrame := by
  refine ⟨rfl, rfl, by decide, ?_⟩
  rintro ⟨rowData, h, _⟩
  have hs := congrArg (fun s : Step => seekOffsets s.events) h
  have hl : seekOffsets (render ⟨16, 4294967295⟩ sampleFrame).events = [0, -2] := by decide
  simp only [hl, scanlineEvents, seekOffsets_scanlineEvents] at hs
  revert hs
  decide

/-- C1 (amended): 16-bit write path. For every 3-channel 8-bit frame of width
`w` and height `h`, both at most 2^24 (so that the `float`s of `cv::Size2f`
hold them exactly), and every geometry with `bitsPerPixel = 16` and virtual
width `vw` such that the largest row offset `(h - 1) * vw * 2` is below 2^31
(so that it fits the `int` it is computed in), the writer performs exactly `h`
seek+write pairs, one per row `r = 0..h-1` in increasing order, each seeking to
byte offset `r * vw * 2` and writing exactly `w * 2` bytes. -/
theorem render_depth16 (fb_info : framebuffer_info) (frame : Mat)
    (hc : frame.channels = 3) (hd : frame.depth = CV_8U)
    (hb : fb_info.bits_per_pixel = 16)
    (hw : frame.cols ≤ 16777216) (hh : frame.rows ≤ 16777216)
    (hoff : (frame.rows - 1) * fb_info.xres_virtual * 2 < 2147483648) :
    WritesRows16 fb_info frame := by
  refine ⟨fun r => (cvtColorBGR565 frame).ptr r (frame.cols * 2), ?_, ?_⟩
  · rw [render_format_ok fb_info frame hc hd, framebufferWrite_16 fb_info frame hb hw hh hoff]
  · intro r _
    exact ptr_length _ _ _

set_option maxRecDepth 100000 in
/-- C1 at the scenario of the specification: a 320 x 240 frame and virtual
width 240 give 240 writes of 640 bytes each, at offsets 0, 480, 960, ... -/
theorem render_depth16_witness :
    WritesRows16 ⟨16, 240⟩ scenarioFrame ∧
    writeLengths (render ⟨16, 240⟩ scenarioFrame).events = List.replicate 240 640 ∧
    (seekOffsets (render ⟨16, 240⟩ scenarioFrame).events).take 4 = [0, 480, 960, 1440] :=
  ⟨render_depth16 ⟨16, 240⟩ scenarioFrame rfl rfl rfl (by decide) (by decide) (by decide),
    by decide, by decide⟩

/-- C2, as stated, fails: with `bitsPerPixel = 32` and virtual width
4294967295 the `int` the code keeps the width in is -1, so the seek for row 1
of the 2x2 sample frame (3 channels, 8 bits) goes to offset -4, not to
`1 * 4294967295 * 4`. -/
theorem render_depth32_counterexample :
    sampleFrame.channels = 3 ∧ sampleFrame.depth = CV_8U ∧
    seekOffsets (render ⟨32, 4294967295⟩ sampleFrame).events = [0, -4] ∧
    ¬ WritesRows32 ⟨32, 4294967295⟩ sampleFrame := by
  refine ⟨rfl, rfl, by decide, ?_⟩
  rintro ⟨rowData, h, _⟩
  have hs := congrArg (fun s : Step => seekOffsets s.events) h
  have hl : seekOffsets (render ⟨32, 4294967295⟩ sampleFrame).events = [0, -4] := by decide
  simp only [hl, scanlineEvents, seekOffsets_scanlineEvents] at hs
  revert hs
  decide

/-- C2 (amended): 32-bit write path. For every 3-channel 8-bit frame of width
`w` and height `h`, both at most 2^24 (so that the `float`s of `cv::Size2f`
hold them exactly), and every geometry with `bitsPerPixel = 32` and virtual
width `vw` such that the largest row offset `(h - 1) * vw * 4` is below 2^31
(so that it fits the `int` it is computed in), the buffer written for each
pixel is 4 bytes, the pixel's three channel bytes in their original order and
then 255, and the writer performs exactly `h` seek+write pairs, row `r` seeking
to byte offset `r * vw * 4` and writing exactly `w * 4` bytes. -/
theorem render_depth32 (fb_info : framebuffer_info) (frame : Mat)
    (hc : frame.channels = 3) (hd : frame.depth = CV_8U)
    (hb : fb_info.bits_per_pixel = 32)
    (hw : frame.cols ≤ 16777216) (hh : frame.rows ≤ 16777216)
    (hoff : (frame.rows - 1) * fb_info.xres_virtual * 4 < 2147483648) :
    WritesRows32 fb_info frame := by
  obtain ⟨compat, hev, hcols, hch, hdata, hpad⟩ :=
    framebufferWrite_32 fb_info frame hc hd hb hw hh hoff
  refine ⟨fun r => compat.ptr r (frame.cols * 4), ?_, ?_⟩
  · rw [render_format_ok fb_info frame hc hd, hev]
  · intro r _
    refine ⟨ptr_length _ _ _, ?_⟩
    intro c hcw
    have hpix : ∀ k, k < 4 →
        (compat.ptr r (frame.cols * 4))[4 * c + k]? = some (compat.data r c k) := by
      intro k hk
      rw [ptr_getElem compat r (frame.cols * 4) (4 * c + k) (by omega)]
      have := byteAt_pixel compat r c k (by omega) (by omega)
      rw [hch] at this
      rw [this]
    refine ⟨?_, ?_⟩
    · intro k hk
      rw [hpix k (by omega), hdata r c k hk]
    · rw [hpix 3 (by omega), hpad r c]

/-- C2 at the sample frame with virtual width 5: rows at offsets 0 and 20, 8
bytes each, the first row being the bytes 100 101 102 255 103 104 105 255. -/
theorem render_depth32_witness :
    WritesRows32 ⟨32, 5⟩ sampleFrame ∧
    (render ⟨32, 5⟩ sampleFrame).events.head? =
      some (Event.seekp 0) ∧
    seekOffsets (render ⟨32, 5⟩ sampleFrame).events = [0, 20] ∧
    writeLengths (render ⟨32, 5⟩ sampleFrame).events = [8, 8] :=
  ⟨render_depth32 ⟨32, 5⟩ sampleFrame rfl rfl rfl (by decide) (by decide) (by decide),
    rfl, by decide, by decide⟩

/-- C9: an empty frame is skipped. Whatever the collaborators, the geometry
and the state of the framebuffer stream, a round of the loop on an empty camera
frame makes no call at all (no decode, no seek, no write, no output), raises
nothing, leaves the stream as it was, and the loop goes on with the next frame. -/
theorem iteration_empty_frame (env : Env) (fb_info : framebuffer_info) (captured : Mat)
    (rest : List Mat) (s : Ofstream) (he : captured.empty = true) :
    iteration env fb_info captured = ⟨[], false⟩ ∧
    s.run (iteration env fb_info captured).events = s ∧
    renderLoop env fb_info (captured :: rest) = renderLoop env fb_info rest := by
  have hit : iteration env fb_info captured = ⟨[], false⟩ := by simp [iteration, he]
  refine ⟨hit, ?_, ?_⟩
  · rw [hit]
    rfl
  · simp [renderLoop, hit]

/-- C9 at the sample: an empty frame ahead of a 640 x 480 frame changes nothing. -/
theorem iteration_empty_frame_witness :
    iteration sampleEnv ⟨16, 240⟩ emptyFrame = ⟨[], false⟩ ∧
    renderLoop sampleEnv ⟨16, 240⟩ [emptyFrame, capturedFrame] =
      renderLoop sampleEnv ⟨16, 240⟩ [capturedFrame] :=
  ⟨(iteration_empty_frame sampleEnv ⟨16, 240⟩ emptyFrame [capturedFrame] blankDevice rfl).1,
    (iteration_empty_frame sampleEnv ⟨16, 240⟩ emptyFrame [capturedFrame] blankDevice rfl).2.2⟩

/-- C10: geometric normalization. For every captured frame `F` at least 480
pixels wide and 360 high, the crop succeeds and the frame handed to the scanner
and the writer is the 320 x 240 region of `F` starting at `(x = 160, y = 120)`,
transposed and then flipped horizontally; it is 240 wide and 320 high, and its
pixel at row `y`, column `x` is the pixel of `F` at row `120 + (239 - x)`,
column `160 + y`. -/
theorem normalize_geometry (env : Env) (fb_info : framebuffer_info) (F : Mat)
    (hw : 480 ≤ F.cols) (hh : 360 ≤ F.rows) :
    ∃ frame : Mat,
      normalize F = some frame ∧
      F.roi 160 120 320 240 =
        some ⟨240, 320, F.channels, F.depth, fun r c k => F.data (120 + r) (160 + c) k⟩ ∧
      frame = flipHorizontal (transpose
        ⟨240, 320, F.channels, F.depth, fun r c k => F.data (120 + r) (160 + c) k⟩) ∧
      frame.cols = 240 ∧ frame.rows = 320 ∧
      (∀ y x k, y < 320 → x < 240 →
        frame.data y x k = F.data (120 + (239 - x)) (160 + y) k) ∧
      iteration env fb_info F =
        ⟨(GetQR env frame).2 ++ [Event.cout (GetQR env frame).1]
          ++ (render fb_info frame).events, (render fb_info frame).raised⟩ := by
  have hn := normalize_ok F hw hh
  refine ⟨_, hn, ?_, rfl, rfl, rfl, ?_, ?_⟩
  · have hin : 160 + 320 ≤ F.cols ∧ 120 + 240 ≤ F.rows := ⟨by omega, by omega⟩
    simp [Mat.roi, hin]
  · intro y x k _ _
    simp [flipHorizontal, transpose]
  · exact iteration_normalized env fb_info F _ (not_empty_of_large F hw hh) hn

/-- C10 at the 640 x 480 camera frame: the normalized frame is 240 x 320 and
its top left pixel is the pixel of the capture at row 359, column 160. -/
theorem normalize_geometry_witness :
    ∃ frame : Mat, normalize capturedFrame = some frame ∧
      frame.cols = 240 ∧ frame.rows = 320 ∧
      frame.data 0 0 0 = capturedFrame.data 359 160 0 := by
  obtain ⟨frame, hn, _, _, hcols, hrows, hpix, _⟩ :=
    normalize_geometry sampleEnv ⟨16, 240⟩ capturedFrame (by decide) (by decide)
  exact ⟨frame, hn, hcols, hrows, hpix 0 0 0 (by decide) (by decide)⟩

/-! ## Startup: claims -/

/-- C6, on the code: when `open` on the framebuffer device fails (`fd = -1`)
and the camera opens, `get_framebuffer_info` returns its local record
unassigned, and `main` does not exit: it announces the camera and enters the
render loop with that geometry. With the unassigned geometry reading
`{16, 240}`, one 640 x 480 camera frame is scanned and its 320 scanlines are
written (640 stream calls). Only the camera failure ends `main` with status 1. -/
theorem main_framebuffer_unavailable (env : Env) (frames : List Mat)
    (ioctlResult : Int) (screen_info garbage : framebuffer_info) :
    get_framebuffer_info ⟨-1, ioctlResult, screen_info, garbage, true⟩ = garbage ∧
    main ⟨-1, ioctlResult, screen_info, garbage, true⟩ env frames =
      (Event.cout "Successfully opened video device." :: (renderLoop env garbage frames).events,
        if (renderLoop env garbage frames).raised then Exit.aborted else Exit.running) ∧
    (main ⟨-1, ioctlResult, screen_info, garbage, true⟩ env frames).2 ≠ Exit.status 1 ∧
    (main ⟨-1, -1, ⟨0, 0⟩, ⟨16, 240⟩, true⟩ sampleEnv [capturedFrame]).1.countP Event.isDevice
      = 640 ∧
    (main ⟨-1, -1, ⟨0, 0⟩, ⟨16, 240⟩, true⟩ sampleEnv [capturedFrame]).2 = Exit.running ∧
    ∀ st : Startup, st.capOpened = false →
      main st env frames = ([Event.cerr "Could not open video device."], Exit.status 1) := by
  have hinfo : ∀ (i : Int) (g u : framebuffer_info),
      get_framebuffer_info ⟨-1, i, g, u, true⟩ = u := by
    intro i g u
    simp [get_framebuffer_info]
  have hmain : ∀ (i : Int) (g u : framebuffer_info) (e : Env) (fs : List Mat),
      main ⟨-1, i, g, u, true⟩ e fs =
        (Event.cout "Successfully opened video device." :: (renderLoop e u fs).events,
          if (renderLoop e u fs).raised then Exit.aborted else Exit.running) := by
    intro i g u e fs
    simp [main, hinfo]
  have hr : render ⟨16, 240⟩ normalizedFrame =
      ⟨scanlineEvents 240 2 240 320
        (fun r => (cvtColorBGR565 normalizedFrame).ptr r (240 * 2)), false⟩ := by
    rw [render_format_ok _ _ rfl rfl]
    exact framebufferWrite_16 ⟨16, 240⟩ normalizedFrame rfl (by decide) (by decide) (by decide)
  have hloop : renderLoop sampleEnv ⟨16, 240⟩ [capturedFrame] =
      ⟨(GetQR sampleEnv normalizedFrame).2 ++ [Event.cout (GetQR sampleEnv normalizedFrame).1]
        ++ scanlineEvents 240 2 240 320
          (fun r => (cvtColorBGR565 normalizedFrame).ptr r (240 * 2)), false⟩ := by
    have hit := iteration_normalized sampleEnv ⟨16, 240⟩ capturedFrame normalizedFrame rfl rfl
    rw [hr] at hit
    simp [renderLoop, hit]
  refine ⟨hinfo _ _ _, hmain _ _ _ _ _, ?_, ?_, ?_, ?_⟩
  · rw [hmain]
    split <;> simp
  · rw [hmain, hloop]
    simp only [List.countP_cons, List.countP_append, GetQR_no_device,
      countP_device_scanlineEvents, Event.isDevice, List.countP_nil]
    decide
  · rw [hmain, hloop]
    rfl
  · intro st hcap
    simp [main, hcap]
end Opencv2fb
